import Mathlib

/-!
Verification of the Clarity expense-tracker engine (`src/app/layout.tsx`,
`src/unnamed/part_000` = `lib/types.ts`).

The TypeScript engine is shallowly embedded below:
* JS numbers that hold monetary amounts are modelled as `ℚ` (the claims never
  depend on binary floating-point artefacts);
* JS strings are Lean `String`s; the relevant platform primitives
  (`toLowerCase`, `trim`, `includes`, relational `<` on strings, `Number(...)`,
  `toFixed(2)`, `replace`) are modelled as executable functions on `List Char`
  (`toLowerCase` restricted to ASCII, `Number` restricted to optionally signed
  decimal numerals, which covers every behaviour the claims mention);
* the React state updates of `handleSubmit` / `handleDelete` become pure
  functions from the old expense collection to the new one; the runtime-supplied
  `crypto.randomUUID()` and `Date.now()` values become explicit parameters.
-/

namespace Clarity

/-! ### Data model (`lib/types.ts`) -/

/-- The closed `CATEGORIES` enumeration of `lib/types.ts`. -/
inductive Category where
  | Food
  | Transportation
  | Entertainment
  | Shopping
  | Bills
  | Other
deriving DecidableEq

/-- `CATEGORIES` from `lib/types.ts`, in source order. -/
def CATEGORIES : List Category :=
  [Category.Food, Category.Transportation, Category.Entertainment,
   Category.Shopping, Category.Bills, Category.Other]

/-- The string each category renders/serializes as (its TS literal). -/
def categoryName : Category → String
  | Category.Food => "Food"
  | Category.Transportation => "Transportation"
  | Category.Entertainment => "Entertainment"
  | Category.Shopping => "Shopping"
  | Category.Bills => "Bills"
  | Category.Other => "Other"

/-- The `Expense` interface of `lib/types.ts`; `amount : number` becomes `ℚ`,
`createdAt : number` (a `Date.now()` timestamp) becomes `Int`. -/
structure Expense where
  id : String
  description : String
  amount : ℚ
  category : Category
  date : String
  createdAt : Int
deriving DecidableEq

/-- The `Filters` interface of `lib/types.ts`. `category : Category | "All"`
becomes `Option Category` with `none` standing for the `"All"` sentinel, and
the reserved word `from` becomes `fromDate` (`to` becomes `toDate`). -/
structure Filters where
  search : String
  category : Option Category
  fromDate : String
  toDate : String
deriving DecidableEq

/-- The `FormState` interface of `layout.tsx` (the draft form); `amount` is the
raw text of the controlled `<input>`, exactly as in the source. -/
structure FormState where
  description : String
  amount : String
  category : Category
  date : String
deriving DecidableEq

/-! ### JS platform primitives used by the engine -/

/-- Model of `String.prototype.toLowerCase` restricted to ASCII letters
(via Lean's `Char.toLower`); no claim involves non-ASCII case mapping. -/
def toLowerStr (s : String) : String :=
  String.mk (s.data.map Char.toLower)

/-- Whitespace test used by the models of `trim()` and `Number()`
(space, tab, carriage return, line feed). -/
def isJsSpace (c : Char) : Bool :=
  c.isWhitespace

/-- `trim` on a character list: drop whitespace from both ends. -/
def trimL (l : List Char) : List Char :=
  (((l.dropWhile isJsSpace).reverse.dropWhile isJsSpace)).reverse

/-- Model of `String.prototype.trim`. -/
def trimStr (s : String) : String :=
  String.mk (trimL s.data)

/-- Does `l` start with `p`? (helper for the `includes` model). -/
def startsWithL : List Char → List Char → Bool
  | _, [] => true
  | [], _ :: _ => false
  | c :: cs, d :: ds => c == d && startsWithL cs ds

/-- Substring occurrence on character lists (helper for `includes`). -/
def hasSubL : List Char → List Char → Bool
  | [], sub => sub.isEmpty
  | c :: cs, sub => startsWithL (c :: cs) sub || hasSubL cs sub

/-- Model of `String.prototype.includes`: `strIncludes s sub` is `true` iff
`sub` occurs contiguously in `s` (an empty `sub` always matches). -/
def strIncludes (s sub : String) : Bool :=
  hasSubL s.data sub.data

/-- Code-unit comparison of two characters, as JS `<` compares strings. -/
def charLt (a b : Char) : Bool :=
  decide (a.toNat < b.toNat)

/-- Lexicographic comparison of character lists: the semantics of the JS
relational operator `<` on strings (code-unit order). -/
def listLt : List Char → List Char → Bool
  | [], [] => false
  | [], _ :: _ => true
  | _ :: _, [] => false
  | a :: as, b :: bs =>
    if charLt a b then true
    else if charLt b a then false
    else listLt as bs

/-- Model of the JS relational operator `<` on strings.  `a >= b` in JS is
exactly `strLt a b = false`, and `a <= b` is `strLt b a = false`. -/
def strLt (a b : String) : Bool :=
  listLt a.data b.data

/-- Numeric value of a digit list (most significant first). -/
def digitsToNat (l : List Char) : Nat :=
  l.foldl (fun n c => n * 10 + (c.toNat - 48)) 0

/-- Parse an unsigned decimal numeral, possibly with a fractional part
(`"12"`, `"12."`, `".5"`, `"12.5"`); `none` models `NaN`. -/
def parseUnsigned (l : List Char) : Option ℚ :=
  let intPart := l.takeWhile (fun c => !(c == '.'))
  let rest := l.dropWhile (fun c => !(c == '.'))
  match rest with
  | [] =>
    if intPart ≠ [] ∧ intPart.all Char.isDigit then
      some (digitsToNat intPart : ℚ)
    else none
  | _ :: frac =>
    if (intPart ≠ [] ∨ frac ≠ []) ∧ intPart.all Char.isDigit ∧ frac.all Char.isDigit then
      some ((digitsToNat intPart : ℚ) + (digitsToNat frac : ℚ) / (10 : ℚ) ^ frac.length)
    else none

/-- Model of the JS conversion `Number(s)` on strings, restricted to optionally
signed decimal numerals (no hex/exponent forms — the engine never feeds it
such text from its own flow, and no claim depends on them).  `none` models
`NaN`; as in JS, a whitespace-only string converts to `0`. -/
def jsToNumber (s : String) : Option ℚ :=
  match trimL s.data with
  | [] => some (0 : ℚ)
  | '-' :: rest => (parseUnsigned rest).map (fun q => -q)
  | '+' :: rest => parseUnsigned rest
  | l => parseUnsigned l

/-- Left-pad a two-digit fractional part. -/
def pad2 (n : Nat) : String :=
  if n < 10 then "0" ++ toString n else toString n

/-- Model of `Number.prototype.toFixed(2)`: round the rational value to two
decimal places (nearest, ties away from zero — which agrees with the spec's
semantics on the positive amounts the engine stores) and render with exactly
two fraction digits.  `(2 * |num| * 100 + den) / (2 * den)` is
`⌊|q| * 100 + 1/2⌋` computed in `Nat`. -/
def toFixed2 (q : ℚ) : String :=
  let cents : Nat := (2 * q.num.natAbs * 100 + q.den) / (2 * q.den)
  let sign := if q.num < 0 then "-" else ""
  sign ++ toString (cents / 100) ++ "." ++ pad2 (cents % 100)

/-! ### Mutator (`validateForm`, `handleSubmit`, `handleDelete`) -/

/-- `validateForm` of `layout.tsx`.  The spec's error names correspond to the
source's literal messages: `EmptyDescription` ↦ `"Add a description"`,
`MissingDate` ↦ `"Pick a date"`, `InvalidAmount` ↦ `"Enter a valid amount"`.
`Number.isNaN(amount)` is modelled by `jsToNumber` returning `none`. -/
def validateForm (form : FormState) : Option String :=
  if trimStr form.description = "" then some "Add a description"
  else if form.date = "" then some "Pick a date"
  else
    match jsToNumber form.amount with
    | none => some "Enter a valid amount"
    | some amount => if amount ≤ 0 then some "Enter a valid amount" else none

/-- The transient status message set by `handleSubmit`. -/
inductive SubmitStatus where
  | error (message : String)
  | success (message : String)
deriving DecidableEq

/-- `handleSubmit` of `layout.tsx` as a pure function: given the current
`editingId`, the runtime-provided fresh id (`crypto.randomUUID()`) and
timestamp (`Date.now()`), the draft form and the current collection, it
returns the new collection together with the status message.  The update
branch `{ ...item, ...form, amount }` overwrites `description`, `category`
and `date` with the draft's raw values (the description is NOT trimmed) and
`amount` with the parsed number; the create branch trims the description. -/
def handleSubmit (editingId : Option String) (newId : String) (now : Int)
    (form : FormState) (expenses : List Expense) : List Expense × SubmitStatus :=
  match validateForm form with
  | some validationError => (expenses, SubmitStatus.error validationError)
  | none =>
    let amount : ℚ := (jsToNumber form.amount).getD 0
    match editingId with
    | some eid =>
      (expenses.map (fun item =>
        if item.id = eid then
          { item with
            description := form.description
            amount := amount
            category := form.category
            date := form.date }
        else item),
       SubmitStatus.success "Expense updated")
    | none =>
      ({ id := newId
         description := trimStr form.description
         amount := amount
         category := form.category
         date := form.date
         createdAt := now } :: expenses,
       SubmitStatus.success "Expense added")

/-- `handleDelete` of `layout.tsx` (the `setExpenses` filter). -/
def handleDelete (id : String) (expenses : List Expense) : List Expense :=
  expenses.filter (fun expense => decide (expense.id ≠ id))

/-! ### Query engine (`filteredExpenses`, totals, `topCategory`) -/

/-- The filter predicate inside `filteredExpenses`: category matches (or the
filter category is the `"All"` sentinel, here `none`); the lower-cased
description contains the trimmed lower-cased search text; and the date lies
within the (inclusive) bounds when they are non-empty.  JS `a >= b` on strings
is `strLt a b = false`; `a <= b` is `strLt b a = false`. -/
def matchesFilters (filters : Filters) (expense : Expense) : Bool :=
  let matchesCategory : Bool :=
    match filters.category with
    | none => true
    | some c => decide (expense.category = c)
  let matchesSearch : Bool :=
    strIncludes (toLowerStr expense.description) (toLowerStr (trimStr filters.search))
  let afterFrom : Bool :=
    if filters.fromDate = "" then true else !strLt expense.date filters.fromDate
  let beforeTo : Bool :=
    if filters.toDate = "" then true else !strLt filters.toDate expense.date
  matchesCategory && matchesSearch && afterFrom && beforeTo

/-- One insertion step of the model of
`.sort((a, b) => (a.date < b.date ? 1 : -1))`.

The comparator never returns `0`, so it is not a consistent comparison
function and ECMAScript leaves the resulting order implementation-defined.
We model the semantics of V8 (Node.js and Chrome, the engines a Next.js app
runs on), whose TimSort places an element at the leftmost position whose
occupant `x` satisfies `comparator(e, x) < 0`, i.e. before the first `x` with
`¬ (e.date < x.date)` — in particular BEFORE any element with an equal date.
Extensionally this sorts by date descending with equal dates in REVERSE of
their original order, and every TimSort phase realizes exactly that order for
this comparator: binary insertion places the (later) pivot before equal-date
elements, run detection treats equal-date neighbours as part of a strictly
descending run and reverses them, and the merge step takes the right (later)
run's element first whenever the comparator reports it smaller, which it does
on every tie. -/
def insertByDate (expense : Expense) : List Expense → List Expense
  | [] => [expense]
  | x :: xs =>
    if strLt expense.date x.date then x :: insertByDate expense xs
    else expense :: x :: xs

/-- The model of `Array.prototype.sort` with the date comparator: elements are
taken left to right and inserted by `insertByDate`. -/
def sortByDateDesc (l : List Expense) : List Expense :=
  l.foldl (fun sorted expense => insertByDate expense sorted) []

/-- `filteredExpenses` of `layout.tsx`: filter, then sort descending by the
`date` string. -/
def filteredExpenses (expenses : List Expense) (filters : Filters) : List Expense :=
  sortByDateDesc (expenses.filter (matchesFilters filters))

/-- The `sum + expense.amount` reduce with initial value `0` used by
`totalsByCategory`, `totalSpent` and `monthlySpent`. -/
def sumAmounts (l : List Expense) : ℚ :=
  l.foldl (fun sum expense => sum + expense.amount) 0

/-- One entry of `totalsByCategory`. -/
structure CategoryTotal where
  category : Category
  total : ℚ
deriving DecidableEq

/-- `totalsByCategory` of `layout.tsx`: one entry per category of `CATEGORIES`,
in that order. -/
def totalsByCategory (expenses : List Expense) : List CategoryTotal :=
  CATEGORIES.map (fun category =>
    { category := category
      total := sumAmounts (expenses.filter (fun expense => decide (expense.category = category))) })

/-- `totalSpent` of `layout.tsx`. -/
def totalSpent (expenses : List Expense) : ℚ :=
  sumAmounts expenses

/-- One step of the `reduce` inside `topCategory`; `top` is never `undefined`
(the reduce has an initial value), so `top?.total ?? 0` is `top.total`. -/
def topStep (top current : CategoryTotal) : CategoryTotal :=
  if top.total < current.total then current else top

/-- `topCategory` of `layout.tsx`: reduce over the totals with initial value
`{ category: "Food", total: 0 }`, keeping the strictly larger total. -/
def topCategory (expenses : List Expense) : CategoryTotal :=
  (totalsByCategory expenses).foldl topStep { category := Category.Food, total := 0 }

/-! ### Exporter (`exportCsv`) -/

/-- A double-quote character, written by code. -/
def dq : String := "\x22"

/-- Model of `cell.replace(/\"/g, '"')`: each double quote is replaced by the
replacement text, which is itself a single double quote. -/
def replaceQuote : List Char → List Char
  | [] => []
  | c :: cs => (if c == '\x22' then '\x22' else c) :: replaceQuote cs

/-- One quoted CSV cell: `"${cell.replace(/\"/g, '"')}"`. -/
def csvCell (cell : String) : String :=
  dq ++ String.mk (replaceQuote cell.data) ++ dq

/-- One CSV line: `row.map(quote).join(",")`. -/
def csvLine (row : List String) : String :=
  String.intercalate "," (row.map csvCell)

/-- The header cells of `exportCsv`. -/
def csvHeader : List String :=
  ["Description", "Amount", "Category", "Date"]

/-- The data cells produced for one expense by `exportCsv`. -/
def expenseRow (expense : Expense) : List String :=
  [expense.description, toFixed2 expense.amount, categoryName expense.category, expense.date]

/-- The full CSV text of `exportCsv`: the header and the data rows all go
through the same quoting `map`, joined by `"\n"`. -/
def csvText (rows : List Expense) : String :=
  String.intercalate "\n" ((csvHeader :: rows.map expenseRow).map csvLine)

/-- `exportCsv` of `layout.tsx` as a pure function: `none` models "no file is
produced" (the early `return` when the collection is empty), `some s` models
the downloaded `expenses.csv` with content `s`.  Note the guard tests the FULL
collection while the rows come from the filtered list. -/
def exportCsv (expenses : List Expense) (filters : Filters) : Option String :=
  if expenses.length = 0 then none
  else some (csvText (filteredExpenses expenses filters))

/-! ### Concrete fixtures (the spec's scenario data and counterexample inputs) -/

/-- The `Coffee` record of the spec's concrete scenario (§8). -/
def coffeeExpense : Expense :=
  { id := "e1", description := "Coffee", amount := 9/2, category := Category.Food,
    date := "2024-01-05", createdAt := 0 }

/-- The `Bus` record of the spec's concrete scenario (§8). -/
def busExpense : Expense :=
  { id := "e2", description := "Bus", amount := 11/4, category := Category.Transportation,
    date := "2024-01-06", createdAt := 1 }

/-- The initial, unconstrained filter specification. -/
def noFilter : Filters := { search := "", category := none, fromDate := "", toDate := "" }

/-- A filter specification whose search text matches no fixture record. -/
def excludeAllFilters : Filters :=
  { search := "zzz", category := none, fromDate := "", toDate := "" }

/-- Two records sharing one date (tie-order counterexample input).  `twinA`
sits at the head of the collection with the later `createdAt`, exactly as the
create flow leaves it (new records are prepended). -/
def twinA : Expense :=
  { id := "a1", description := "Tea", amount := 2, category := Category.Food,
    date := "2024-02-01", createdAt := 6 }

/-- Second record with the same date as `twinA`, created earlier. -/
def twinB : Expense :=
  { id := "b1", description := "Juice", amount := 3, category := Category.Food,
    date := "2024-02-01", createdAt := 5 }

/-- A well-formed stored record used by the mutator claims. -/
def baseExpense : Expense :=
  { id := "a", description := "Lunch", amount := 5, category := Category.Food,
    date := "2024-01-02", createdAt := 0 }

/-- A valid draft whose description carries surrounding whitespace. -/
def paddedForm : FormState :=
  { description := " Dinner ", amount := "7", category := Category.Food, date := "2024-01-03" }

/-- A valid draft with an already-trimmed description. -/
def tidyForm : FormState :=
  { description := "Dinner", amount := "7", category := Category.Food, date := "2024-01-03" }

/-- The draft holding exactly `baseExpense`'s current field values
(as `handleEdit` would populate it). -/
def selfForm : FormState :=
  { description := "Lunch", amount := "5", category := Category.Food, date := "2024-01-02" }

/-- A draft with a blank (whitespace-only) description. -/
def blankDescForm : FormState :=
  { description := "  ", amount := "10", category := Category.Food, date := "2024-01-01" }

/-- A draft with no date picked. -/
def noDateForm : FormState :=
  { description := "Rent", amount := "10", category := Category.Food, date := "" }

/-- A draft whose amount field is the empty string. -/
def emptyAmountForm : FormState :=
  { description := "Rent", amount := "", category := Category.Food, date := "2024-01-01" }

/-! ### Derived notions used by the claim statements -/

/-- "Descending by date": the element on the left is not date-smaller than the
element on the right (JS `a.date >= b.date`). -/
def DateDesc (a b : Expense) : Prop :=
  strLt a.date b.date = false

instance : DecidableRel DateDesc := fun a b => by
  unfold DateDesc
  infer_instance

/-- The record invariants of spec §3: positive amount, category in the closed
enumeration, unique ids, and a non-empty trimmed description. -/
def Invariant (l : List Expense) : Prop :=
  (∀ e ∈ l, 0 < e.amount ∧ e.category ∈ CATEGORIES ∧
    trimStr e.description = e.description ∧ e.description ≠ "") ∧
  (l.map (fun e => e.id)).Nodup

/-- The invariants minus "the description is trimmed": what the update branch
actually guarantees (the description is still non-blank after trimming). -/
def WeakInvariant (l : List Expense) : Prop :=
  (∀ e ∈ l, 0 < e.amount ∧ e.category ∈ CATEGORIES ∧ trimStr e.description ≠ "") ∧
  (l.map (fun e => e.id)).Nodup

instance (l : List Expense) : Decidable (Invariant l) := by
  unfold Invariant
  infer_instance

instance (l : List Expense) : Decidable (WeakInvariant l) := by
  unfold WeakInvariant
  infer_instance

/-- The first entry of `totalsByCategory`: the Food category with its total. -/
def foodEntry (expenses : List Expense) : CategoryTotal :=
  { category := Category.Food,
    total := sumAmounts (expenses.filter (fun e => decide (e.category = Category.Food))) }

/-- The entries of `totalsByCategory` after the Food entry. -/
def totalsTail (expenses : List Expense) : List CategoryTotal :=
  [Category.Transportation, Category.Entertainment, Category.Shopping,
   Category.Bills, Category.Other].map (fun category =>
    { category := category,
      total := sumAmounts (expenses.filter (fun e => decide (e.category = category))) })

/-- The exact output the spec's §8 exporter scenario claims (bare header,
quoted data rows). -/
def specClaimedCsv : String :=
  "Description,Amount,Category,Date\n\x22Bus\x22,\x222.75\x22,\x22Transportation\x22,\x222024-01-06\x22\n\x22Coffee\x22,\x224.50\x22,\x22Food\x22,\x222024-01-05\x22"

/-! ### String-order helper lemmas

`listLt` is the strict lexicographic order on code units; the engine's sort
only ever consults it through `strLt`.  The three facts below (irreflexivity,
asymmetry, and transitivity of its complement) are what the sorting proofs
need. -/

theorem charLt_eq_true {a b : Char} : charLt a b = true ↔ a.toNat < b.toNat := by
  simp [charLt]

theorem charLt_eq_false {a b : Char} : charLt a b = false ↔ ¬ a.toNat < b.toNat := by
  simp [charLt]

theorem listLt_irrefl : ∀ l : List Char, listLt l l = false
  | [] => rfl
  | a :: as => by
    have h : charLt a a = false := charLt_eq_false.mpr (Nat.lt_irrefl _)
    simp [listLt, h, listLt_irrefl as]

theorem listLt_asymm : ∀ {a b : List Char}, listLt a b = true → listLt b a = false
  | [], [], h => by simp [listLt] at h
  | [], _ :: _, _ => rfl
  | _ :: _, [], h => by simp [listLt] at h
  | x :: xs, y :: ys, h => by
    by_cases hxy : x.toNat < y.toNat
    · have h1 : charLt y x = false := charLt_eq_false.mpr (Nat.lt_asymm hxy)
      have h2 : charLt x y = true := charLt_eq_true.mpr hxy
      simp [listLt, h1, h2]
    · have h2 : charLt x y = false := charLt_eq_false.mpr hxy
      simp only [listLt, h2, Bool.false_eq_true, if_false] at h
      by_cases hyx : y.toNat < x.toNat
      · simp [charLt_eq_true.mpr hyx] at h
      · have h1 : charLt y x = false := charLt_eq_false.mpr hyx
        simp only [h1, Bool.false_eq_true, if_false] at h
        simp [listLt, h1, h2, listLt_asymm h]

theorem listLt_false_trans :
    ∀ {a b c : List Char}, listLt a b = false → listLt b c = false → listLt a c = false
  | [], [], c, _, hbc => hbc
  | [], _ :: _, _, hab, _ => by simp [listLt] at hab
  | _ :: _, _, [], _, _ => rfl
  | x :: xs, [], z :: zs, _, hbc => by simp [listLt] at hbc
  | x :: xs, y :: ys, z :: zs, hab, hbc => by
    by_cases hxy : x.toNat < y.toNat
    · simp [listLt, charLt_eq_true.mpr hxy] at hab
    by_cases hyz : y.toNat < z.toNat
    · simp [listLt, charLt_eq_true.mpr hyz] at hbc
    have hxz : charLt x z = false := charLt_eq_false.mpr (by omega)
    by_cases hzx : z.toNat < x.toNat
    · simp [listLt, hxz, charLt_eq_true.mpr hzx]
    · have hyx : charLt y x = false := charLt_eq_false.mpr (by omega)
      have hzy : charLt z y = false := charLt_eq_false.mpr (by omega)
      simp only [listLt, charLt_eq_false.mpr hxy, Bool.false_eq_true, if_false, hyx] at hab
      simp only [listLt, charLt_eq_false.mpr hyz, Bool.false_eq_true, if_false, hzy] at hbc
      have hzx' : charLt z x = false := charLt_eq_false.mpr hzx
      simp [listLt, hxz, hzx', listLt_false_trans hab hbc]

theorem strLt_irrefl (s : String) : strLt s s = false :=
  listLt_irrefl s.data

theorem strLt_asymm {a b : String} (h : strLt a b = true) : strLt b a = false :=
  listLt_asymm h

theorem strLt_false_trans {a b c : String}
    (hab : strLt a b = false) (hbc : strLt b c = false) : strLt a c = false :=
  listLt_false_trans hab hbc

theorem charEq_of_toNat_eq {a b : Char} (h : a.toNat = b.toNat) : a = b := by
  have h2 : a.val = b.val := by
    cases hv : a.val with
    | mk av =>
      cases hw : b.val with
      | mk bv =>
        have hav : av = bv := BitVec.eq_of_toNat_eq (by
          have hn := h
          unfold Char.toNat at hn
          rw [hv, hw] at hn
          exact hn)
        rw [hav]
  exact Char.eq_of_val_eq h2

theorem listLt_antisymm :
    ∀ {a b : List Char}, listLt a b = false → listLt b a = false → a = b
  | [], [], _, _ => rfl
  | [], _ :: _, hab, _ => by simp [listLt] at hab
  | _ :: _, [], _, hba => by simp [listLt] at hba
  | x :: xs, y :: ys, hab, hba => by
    by_cases hxy : x.toNat < y.toNat
    · simp [listLt, charLt_eq_true.mpr hxy] at hab
    by_cases hyx : y.toNat < x.toNat
    · simp [listLt, charLt_eq_true.mpr hyx] at hba
    have hxyc : charLt x y = false := charLt_eq_false.mpr hxy
    have hyxc : charLt y x = false := charLt_eq_false.mpr hyx
    simp only [listLt, hxyc, hyxc, Bool.false_eq_true, if_false] at hab hba
    have hchar : x = y := charEq_of_toNat_eq (by omega)
    rw [hchar, listLt_antisymm hab hba]

theorem strLt_antisymm {a b : String}
    (hab : strLt a b = false) (hba : strLt b a = false) : a = b := by
  have h : a.data = b.data := listLt_antisymm hab hba
  cases a with
  | mk da =>
    cases b with
    | mk db =>
      exact congrArg String.mk h

/-! ### Sorting helper lemmas -/

theorem mem_insertByDate (a e : Expense) :
    ∀ l : List Expense, a ∈ insertByDate e l ↔ a = e ∨ a ∈ l
  | [] => by simp [insertByDate]
  | x :: xs => by
    by_cases h : strLt e.date x.date = true
    · simp only [insertByDate, h, if_true, List.mem_cons, mem_insertByDate a e xs]
      tauto
    · simp only [insertByDate, h, List.mem_cons]
      simp only [Bool.not_eq_true] at h
      simp [h]

theorem pairwise_insertByDate (e : Expense) :
    ∀ l : List Expense, List.Pairwise DateDesc l →
      List.Pairwise DateDesc (insertByDate e l)
  | [], _ => by simp [insertByDate, List.Pairwise]
  | x :: xs, h => by
    rcases List.pairwise_cons.mp h with ⟨hx, hxs⟩
    by_cases hlt : strLt e.date x.date = true
    · simp only [insertByDate, hlt, if_true]
      refine List.pairwise_cons.mpr ⟨?_, pairwise_insertByDate e xs hxs⟩
      intro y hy
      rcases (mem_insertByDate y e xs).mp hy with rfl | hy'
      · exact strLt_asymm hlt
      · exact hx y hy'
    · have hlt' : strLt e.date x.date = false := Bool.eq_false_iff.mpr hlt
      simp only [insertByDate, hlt', Bool.false_eq_true, if_false]
      refine List.pairwise_cons.mpr ⟨?_, h⟩
      intro y hy
      rcases List.mem_cons.mp hy with rfl | hy'
      · exact hlt'
      · exact strLt_false_trans hlt' (hx y hy')

theorem filter_insertByDate (e : Expense) (d : String) :
    ∀ l : List Expense, List.Pairwise DateDesc l →
      (insertByDate e l).filter (fun x => decide (x.date = d)) =
        (if e.date = d then e :: l.filter (fun x => decide (x.date = d))
         else l.filter (fun x => decide (x.date = d)))
  | [], _ => by
    by_cases hd : e.date = d <;> simp [insertByDate, List.filter, hd]
  | x :: xs, h => by
    rcases List.pairwise_cons.mp h with ⟨hx, hxs⟩
    by_cases hlt : strLt e.date x.date = true
    · simp only [insertByDate, hlt, if_true]
      by_cases hxd : x.date = d
      · by_cases hed : e.date = d
        · exfalso
          have hir : strLt e.date x.date = false := by
            rw [hed, hxd]
            exact strLt_irrefl d
          rw [hir] at hlt
          exact Bool.false_ne_true hlt
        · simp [List.filter_cons, hxd, hed, filter_insertByDate e d xs hxs]
      · simp [List.filter_cons, hxd, filter_insertByDate e d xs hxs]
    · have hlt' : strLt e.date x.date = false := Bool.eq_false_iff.mpr hlt
      simp only [insertByDate, hlt', Bool.false_eq_true, if_false]
      by_cases hed : e.date = d <;> simp [List.filter_cons, hed]

/-- The combined invariant of the sorting fold: the result is descending, its
per-date slices are the reverse of the input's (later-inserted elements land
in front of equal dates), and its members are the accumulator's plus the
input's. -/
theorem sortFold_spec :
    ∀ (l acc : List Expense), List.Pairwise DateDesc acc →
      List.Pairwise DateDesc (l.foldl (fun sorted expense => insertByDate expense sorted) acc) ∧
      (∀ d : String,
        (l.foldl (fun sorted expense => insertByDate expense sorted) acc).filter
            (fun x => decide (x.date = d)) =
          (l.filter (fun x => decide (x.date = d))).reverse ++
            acc.filter (fun x => decide (x.date = d))) ∧
      (∀ a : Expense,
        a ∈ l.foldl (fun sorted expense => insertByDate expense sorted) acc ↔
          a ∈ acc ∨ a ∈ l)
  | [], acc, h => by
    refine ⟨h, fun d => by simp, fun a => by simp⟩
  | e :: l, acc, h => by
    have hins := pairwise_insertByDate e acc h
    rcases sortFold_spec l (insertByDate e acc) hins with ⟨hp, hf, hm⟩
    refine ⟨hp, ?_, ?_⟩
    · intro d
      have hstep := filter_insertByDate e d acc h
      by_cases hed : e.date = d
      · simp [List.foldl_cons, hf d, hstep, hed, List.filter_cons]
      · simp [List.foldl_cons, hf d, hstep, hed, List.filter_cons]
    · intro a
      simp only [List.foldl_cons, hm a, mem_insertByDate a e acc, List.mem_cons]
      tauto

theorem pairwise_sortByDateDesc (l : List Expense) :
    List.Pairwise DateDesc (sortByDateDesc l) :=
  (sortFold_spec l [] (List.Pairwise.nil)).1

theorem filter_sortByDateDesc (l : List Expense) (d : String) :
    (sortByDateDesc l).filter (fun x => decide (x.date = d)) =
      (l.filter (fun x => decide (x.date = d))).reverse := by
  have h := (sortFold_spec l [] (List.Pairwise.nil)).2.1 d
  simpa [sortByDateDesc] using h

theorem mem_sortByDateDesc {a : Expense} {l : List Expense} :
    a ∈ sortByDateDesc l ↔ a ∈ l := by
  have h := (sortFold_spec l [] (List.Pairwise.nil)).2.2 a
  simpa [sortByDateDesc] using h

/-- Two date-descending lists with identical per-date slices are equal: the
descending order together with the within-date order determines a list
uniquely, which is the contentful form of "the ordering is deterministic". -/
theorem sorted_filter_unique :
    ∀ (l1 l2 : List Expense), List.Pairwise DateDesc l1 → List.Pairwise DateDesc l2 →
      (∀ d : String, l1.filter (fun e => decide (e.date = d)) =
        l2.filter (fun e => decide (e.date = d))) →
      l1 = l2
  | [], [], _, _, _ => rfl
  | [], b :: t2, _, _, h => by
    have hd := h b.date
    simp [List.filter_cons] at hd
  | a :: t1, [], _, _, h => by
    have hd := h a.date
    simp [List.filter_cons] at hd
  | a :: t1, b :: t2, h1, h2, h => by
    rcases List.pairwise_cons.mp h1 with ⟨ha1, ht1⟩
    rcases List.pairwise_cons.mp h2 with ⟨hb2, ht2⟩
    by_cases hab : a.date = b.date
    · have hd := h a.date
      have hc1 : decide (a.date = a.date) = true := by simp
      have hc2 : decide (b.date = a.date) = true := by simp [hab]
      rw [List.filter_cons, List.filter_cons] at hd
      simp only [hc1, if_true, hc2] at hd
      injection hd with hhead htail
      have hslices : ∀ d : String, t1.filter (fun e => decide (e.date = d)) =
          t2.filter (fun e => decide (e.date = d)) := by
        intro d
        by_cases hda : a.date = d
        · rw [← hda]
          exact htail
        · have hdb : ¬ (b.date = d) := by
            rw [← hab]
            exact hda
          have hc5 : decide (a.date = d) = false := by simp [hda]
          have hc6 : decide (b.date = d) = false := by simp [hdb]
          have hd2 := h d
          rw [List.filter_cons, List.filter_cons] at hd2
          simp only [hc5, hc6, Bool.false_eq_true, if_false] at hd2
          exact hd2
      rw [hhead, sorted_filter_unique t1 t2 ht1 ht2 hslices]
    · exfalso
      have hda := h a.date
      have hc1 : decide (a.date = a.date) = true := by simp
      have hc2 : decide (b.date = a.date) = false := by
        simp only [decide_eq_false_iff_not]
        intro hh
        exact hab hh.symm
      rw [List.filter_cons, List.filter_cons] at hda
      simp only [hc1, if_true, hc2, Bool.false_eq_true, if_false] at hda
      have hamem : a ∈ t2 := by
        have hmf : a ∈ t2.filter (fun e => decide (e.date = a.date)) := by
          rw [← hda]
          exact List.mem_cons_self _ _
        exact (List.mem_filter.mp hmf).1
      have h_ba : strLt b.date a.date = false := hb2 a hamem
      have hdb := h b.date
      have hc3 : decide (a.date = b.date) = false := by simp [hab]
      have hc4 : decide (b.date = b.date) = true := by simp
      rw [List.filter_cons, List.filter_cons] at hdb
      simp only [hc3, Bool.false_eq_true, if_false, hc4, if_true] at hdb
      have hbmem : b ∈ t1 := by
        have hmf : b ∈ t1.filter (fun e => decide (e.date = b.date)) := by
          rw [hdb]
          exact List.mem_cons_self _ _
        exact (List.mem_filter.mp hmf).1
      have h_ab : strLt a.date b.date = false := ha1 b hbmem
      exact hab (strLt_antisymm h_ab h_ba)

/-! ### Trimming helper lemmas -/

theorem dropWhile_idem (p : α → Bool) :
    ∀ l : List α, (l.dropWhile p).dropWhile p = l.dropWhile p
  | [] => rfl
  | a :: l => by
    by_cases h : p a = true
    · simp [List.dropWhile_cons, h, dropWhile_idem p l]
    · simp [List.dropWhile_cons, h]

theorem dropWhile_of_append_of_dropWhile_self {p : α → Bool} {l r t : List α}
    (hl : l.dropWhile p = l) (heq : l = r ++ t) : r.dropWhile p = r := by
  cases r with
  | nil => rfl
  | cons c r' =>
    have hc : p c = false := by
      by_contra hc
      have hc' : p c = true := by
        cases hpc : p c
        · exact absurd hpc hc
        · rfl
      have h1 : l.dropWhile p = (r' ++ t).dropWhile p := by
        rw [heq, List.cons_append, List.dropWhile_cons_of_pos hc']
      have h2 : (r' ++ t).dropWhile p = c :: (r' ++ t) := by
        rw [← h1, hl, heq, List.cons_append]
      have h3 : ((r' ++ t).dropWhile p).length ≤ (r' ++ t).length :=
        (List.dropWhile_sublist p).length_le
      rw [h2] at h3
      simp at h3
    rw [List.dropWhile_cons_of_neg]
    simp [hc]

theorem trimL_idem (l : List Char) : trimL (trimL l) = trimL l := by
  set A := l.dropWhile isJsSpace with hA
  have hAself : A.dropWhile isJsSpace = A := dropWhile_idem isJsSpace l
  set D := A.reverse.dropWhile isJsSpace with hD
  have hDself : D.dropWhile isJsSpace = D := dropWhile_idem isJsSpace A.reverse
  have htrim : trimL l = D.reverse := rfl
  rcases (List.dropWhile_suffix isJsSpace : A.reverse.dropWhile isJsSpace <:+ A.reverse)
    with ⟨t, ht⟩
  have hsplit : A = D.reverse ++ t.reverse := by
    have := congrArg List.reverse ht
    simpa [List.reverse_append] using this.symm
  have hBself : D.reverse.dropWhile isJsSpace = D.reverse :=
    dropWhile_of_append_of_dropWhile_self hAself hsplit
  show trimL D.reverse = D.reverse
  unfold trimL
  rw [hBself, List.reverse_reverse, hDself]

theorem trimStr_idem (s : String) : trimStr (trimStr s) = trimStr s :=
  congrArg String.mk (trimL_idem s.data)

/-! ### The filter predicate, unfolded to its four clauses -/

theorem matchesFilters_iff (filters : Filters) (e : Expense) :
    matchesFilters filters e = true ↔
      (filters.category = none ∨ filters.category = some e.category) ∧
      strIncludes (toLowerStr e.description) (toLowerStr (trimStr filters.search)) = true ∧
      (filters.fromDate ≠ "" → strLt e.date filters.fromDate = false) ∧
      (filters.toDate ≠ "" → strLt filters.toDate e.date = false) := by
  unfold matchesFilters
  simp only [Bool.and_eq_true]
  constructor
  · rintro ⟨⟨⟨hcat, hsearch⟩, hfrom⟩, hto⟩
    refine ⟨?_, hsearch, ?_, ?_⟩
    · cases hc : filters.category with
      | none => exact Or.inl rfl
      | some c =>
        rw [hc] at hcat
        simp only [decide_eq_true_eq] at hcat
        exact Or.inr (by rw [hcat])
    · intro hne
      rw [if_neg hne] at hfrom
      simpa using hfrom
    · intro hne
      rw [if_neg hne] at hto
      simpa using hto
  · rintro ⟨hcat, hsearch, hfrom, hto⟩
    refine ⟨⟨⟨?_, hsearch⟩, ?_⟩, ?_⟩
    · cases hc : filters.category with
      | none => rfl
      | some c =>
        rcases hcat with hnone | hsome
        · rw [hc] at hnone
          exact absurd hnone (by simp)
        · rw [hc] at hsome
          simp only [Option.some.injEq] at hsome
          simp [hsome]
    · by_cases hne : filters.fromDate = ""
      · rw [if_pos hne]
      · rw [if_neg hne]
        simp [hfrom hne]
    · by_cases hne : filters.toDate = ""
      · rw [if_pos hne]
      · rw [if_neg hne]
        simp [hto hne]

/-! ### Claim C1 -/

/-- Claim C1: `filtered` keeps a record iff ALL of: the record is in the
collection; its category equals the filter category or the filter category is
the "All" sentinel (`none`); its description, lower-cased, contains the
trimmed lower-cased search text (an empty search matches everything, since
`strIncludes s "" = true`); its date is `>=` the `from` bound when `from` is
non-empty (JS `a >= b` on strings is `strLt a b = false`); and its date is
`<=` the `to` bound when `to` is non-empty. -/
theorem c1_filtered_keeps_iff (expenses : List Expense) (filters : Filters) (e : Expense) :
    e ∈ filteredExpenses expenses filters ↔
      e ∈ expenses ∧
      (filters.category = none ∨ filters.category = some e.category) ∧
      strIncludes (toLowerStr e.description) (toLowerStr (trimStr filters.search)) = true ∧
      (filters.fromDate ≠ "" → strLt e.date filters.fromDate = false) ∧
      (filters.toDate ≠ "" → strLt filters.toDate e.date = false) := by
  unfold filteredExpenses
  rw [mem_sortByDateDesc, List.mem_filter, matchesFilters_iff]

/-! ### Claim C2 -/

/-- Claim C2, amended: the list returned by `filtered` is ordered descending
by the `date` string, and it is deterministic in the contentful sense that
the ordering constraints pin the result down uniquely — it is the one
date-descending list whose per-date slices are as stated (so two calls with
the same arguments trivially agree); but records with EQUAL dates appear in
the REVERSE of their original collection order, not in their original order:
the comparator `(a, b) => (a.date < b.date ? 1 : -1)` never returns `0`, so
the engine's stability guarantee does not apply (ECMAScript leaves the order
implementation-defined for inconsistent comparators), and under the modelled
V8/TimSort semantics each element is placed in front of the equal-date
elements already processed. -/
theorem c2_order_amended (expenses : List Expense) (filters : Filters) :
    List.Pairwise DateDesc (filteredExpenses expenses filters) ∧
    (∀ d : String,
      (filteredExpenses expenses filters).filter (fun e => decide (e.date = d)) =
        ((expenses.filter (matchesFilters filters)).filter
            (fun e => decide (e.date = d))).reverse) ∧
    (∀ out : List Expense, List.Pairwise DateDesc out →
      (∀ d : String, out.filter (fun e => decide (e.date = d)) =
        ((expenses.filter (matchesFilters filters)).filter
            (fun e => decide (e.date = d))).reverse) →
      out = filteredExpenses expenses filters) :=
  ⟨pairwise_sortByDateDesc _, fun d => filter_sortByDateDesc _ d,
   fun out hout hslices =>
     sorted_filter_unique out (filteredExpenses expenses filters) hout
       (pairwise_sortByDateDesc _)
       (fun d => by
         rw [hslices d]
         exact (filter_sortByDateDesc (expenses.filter (matchesFilters filters)) d).symm)⟩

section
attribute [local semireducible] Rat.add Rat.mul Rat.inv Rat.sub Rat.ofScientific

/-- Claim C2, counterexample: two records with the same date come out of
`filtered` in reversed order, refuting "records with equal dates appear in
their original collection order" — both as the whole output list and in the
per-date slice form (the output's equal-date slice differs from the
collection's original one).  `twinA` is the newer-created head record, so the
output also shows oldest-created-first among same-day entries, against the
spec's "newest-created-first". -/
theorem c2_counterexample :
    twinA.date = twinB.date ∧
    filteredExpenses [twinA, twinB] noFilter = [twinB, twinA] ∧
    ([twinB, twinA] : List Expense) ≠ [twinA, twinB] ∧
    (filteredExpenses [twinA, twinB] noFilter).filter
        (fun e => decide (e.date = "2024-02-01")) ≠
      ([twinA, twinB] : List Expense).filter
        (fun e => decide (e.date = "2024-02-01")) := by
  decide

/-- Claim C2, witness: the amended ordering theorem evaluated on the
equal-date fixture — the slice equation at the shared date, and the
uniqueness conjunct applied to the concrete list `[twinB, twinA]`, whose
hypotheses are discharged by computation and a short case split on the
queried date. -/
theorem c2_order_amended_witness :
    (filteredExpenses [twinA, twinB] noFilter).filter
        (fun e => decide (e.date = "2024-02-01")) =
      (([twinA, twinB].filter (matchesFilters noFilter)).filter
          (fun e => decide (e.date = "2024-02-01"))).reverse ∧
    ([twinB, twinA] : List Expense) = filteredExpenses [twinA, twinB] noFilter :=
  ⟨(c2_order_amended [twinA, twinB] noFilter).2.1 "2024-02-01",
   (c2_order_amended [twinA, twinB] noFilter).2.2 [twinB, twinA] (by decide) (by
     intro d
     by_cases hd : d = "2024-02-01"
     · subst hd
       decide
     · have hm : [twinA, twinB].filter (matchesFilters noFilter) = [twinA, twinB] := by
         decide
       have h1 : decide (twinA.date = d) = false := by
         simp only [decide_eq_false_iff_not]
         intro hh
         exact hd (by rw [← hh]; rfl)
       have h2 : decide (twinB.date = d) = false := by
         simp only [decide_eq_false_iff_not]
         intro hh
         exact hd (by rw [← hh]; rfl)
       rw [hm]
       simp [List.filter_cons, h1, h2])⟩

/-- Claim C1, witness: the membership characterization evaluated on the
spec's two-record scenario. -/
theorem c1_filtered_keeps_iff_witness :
    coffeeExpense ∈ filteredExpenses [coffeeExpense, busExpense] noFilter :=
  (c1_filtered_keeps_iff [coffeeExpense, busExpense] noFilter coffeeExpense).mpr (by decide)

end

/-! ### Validation helper lemmas -/

theorem validateForm_blank {form : FormState} (h : trimStr form.description = "") :
    validateForm form = some "Add a description" := by
  simp [validateForm, h]

theorem validateForm_missing_date {form : FormState} (hd : trimStr form.description ≠ "")
    (hdate : form.date = "") : validateForm form = some "Pick a date" := by
  simp [validateForm, hd, hdate]

theorem validateForm_bad_amount {form : FormState} (hd : trimStr form.description ≠ "")
    (hdate : form.date ≠ "")
    (h : jsToNumber form.amount = none ∨ ∃ q : ℚ, jsToNumber form.amount = some q ∧ q ≤ 0) :
    validateForm form = some "Enter a valid amount" := by
  rcases h with hnone | ⟨q, hq, hle⟩
  · simp [validateForm, hd, hdate, hnone]
  · simp [validateForm, hd, hdate, hq, hle]

theorem validateForm_eq_none_iff (form : FormState) :
    validateForm form = none ↔
      trimStr form.description ≠ "" ∧ form.date ≠ "" ∧
      ∃ q : ℚ, jsToNumber form.amount = some q ∧ 0 < q := by
  by_cases hd : trimStr form.description = ""
  · simp [validateForm_blank hd, hd]
  by_cases hdate : form.date = ""
  · simp [validateForm_missing_date hd hdate, hdate]
  cases hq : jsToNumber form.amount with
  | none => simp [validateForm_bad_amount hd hdate (Or.inl hq), hd, hdate, hq]
  | some q =>
    by_cases hle : q ≤ 0
    · simp only [validateForm_bad_amount hd hdate (Or.inr ⟨q, hq, hle⟩), hq]
      simp [hd, hdate]
      exact hle
    · have hv : validateForm form = none := by
        simp [validateForm, hd, hdate, hq, hle]
      simp [hv, hd, hdate, hq]
      linarith [lt_of_not_le hle]

theorem validateForm_none_desc {form : FormState} (h : validateForm form = none) :
    trimStr form.description ≠ "" :=
  ((validateForm_eq_none_iff form).mp h).1

theorem validateForm_none_amount {form : FormState} (h : validateForm form = none) :
    0 < (jsToNumber form.amount).getD 0 := by
  rcases ((validateForm_eq_none_iff form).mp h).2.2 with ⟨q, hq, hpos⟩
  simpa [hq] using hpos

/-! ### Claim C3 -/

/-- Claim C3: validation fails with `EmptyDescription` (`"Add a description"`)
when the description is blank after trimming; with `MissingDate`
(`"Pick a date"`) when the date is absent (and the description is fine, per
the C10 priority); with `InvalidAmount` (`"Enter a valid amount"`) when the
amount fails to parse as a number or is not strictly positive (and the earlier
fields are fine); it succeeds (returns `null`/`none`) exactly otherwise; and
whenever validation fails, `handleSubmit` leaves the collection unchanged. -/
theorem c3_validation_and_reject_frame (editingId : Option String) (newId : String)
    (now : Int) (form : FormState) (expenses : List Expense) :
    (validateForm form = none ↔
      trimStr form.description ≠ "" ∧ form.date ≠ "" ∧
      ∃ q : ℚ, jsToNumber form.amount = some q ∧ 0 < q) ∧
    (trimStr form.description = "" → validateForm form = some "Add a description") ∧
    (trimStr form.description ≠ "" → form.date = "" →
      validateForm form = some "Pick a date") ∧
    (trimStr form.description ≠ "" → form.date ≠ "" →
      (jsToNumber form.amount = none ∨
        ∃ q : ℚ, jsToNumber form.amount = some q ∧ q ≤ 0) →
      validateForm form = some "Enter a valid amount") ∧
    (validateForm form ≠ none →
      (handleSubmit editingId newId now form expenses).1 = expenses) := by
  refine ⟨validateForm_eq_none_iff form, fun h => validateForm_blank h,
    fun hd hdate => validateForm_missing_date hd hdate,
    fun hd hdate h => validateForm_bad_amount hd hdate h, ?_⟩
  intro hfail
  cases hv : validateForm form with
  | none => exact absurd hv hfail
  | some err => simp [handleSubmit, hv]

/-! ### Claim C10 -/

/-- Claim C10: when a draft violates several rules at once exactly one error
is reported, by the fixed priority blank-description → missing-date →
invalid-amount; and a draft with a valid description and date but an empty
amount string fails with the invalid-amount error, because `Number("")` is
`0`, which is not `> 0` — there is no separate missing-amount error. -/
theorem c10_error_priority (form : FormState) :
    (trimStr form.description = "" → validateForm form = some "Add a description") ∧
    (trimStr form.description ≠ "" → form.date = "" →
      validateForm form = some "Pick a date") ∧
    (trimStr form.description ≠ "" → form.date ≠ "" → form.amount = "" →
      validateForm form = some "Enter a valid amount") ∧
    jsToNumber "" = some 0 := by
  refine ⟨fun h => validateForm_blank h,
    fun hd hdate => validateForm_missing_date hd hdate, ?_, rfl⟩
  intro hd hdate hamount
  refine validateForm_bad_amount hd hdate (Or.inr ⟨0, ?_, le_refl 0⟩)
  rw [hamount]
  rfl

section
attribute [local semireducible] Rat.add Rat.mul Rat.inv Rat.sub Rat.ofScientific

/-- Claim C3, witness: a blank-description submit is rejected and leaves the
collection unchanged. -/
theorem c3_validation_and_reject_frame_witness :
    (handleSubmit none "n" 0 blankDescForm [baseExpense]).1 = [baseExpense] :=
  (c3_validation_and_reject_frame none "n" 0 blankDescForm [baseExpense]).2.2.2.2 (by decide)

/-- Claim C10, witness: the priority theorem evaluated on concrete drafts —
a blank-description draft (whatever its other fields), a dateless draft, and
an empty-amount draft. -/
theorem c10_error_priority_witness :
    validateForm blankDescForm = some "Add a description" ∧
    validateForm noDateForm = some "Pick a date" ∧
    validateForm emptyAmountForm = some "Enter a valid amount" :=
  ⟨(c10_error_priority blankDescForm).1 (by decide),
   (c10_error_priority noDateForm).2.1 (by decide) (by decide),
   (c10_error_priority emptyAmountForm).2.2.1 (by decide) (by decide) (by decide)⟩

end

/-! ### Mutator helper lemmas -/

theorem map_eq_self_of {f : α → α} :
    ∀ {l : List α}, (∀ a ∈ l, f a = a) → l.map f = l
  | [], _ => rfl
  | a :: l, h => by
    rw [List.map_cons, h a (List.mem_cons_self a l),
      map_eq_self_of (fun b hb => h b (List.mem_cons_of_mem a hb))]

/-- The update branch of `handleSubmit`, with the parsed amount named. -/
theorem handleSubmit_update_eq (eid newId : String) (now : Int) (form : FormState)
    (expenses : List Expense) (q : ℚ)
    (hval : validateForm form = none) (hq : jsToNumber form.amount = some q) :
    (handleSubmit (some eid) newId now form expenses).1 =
      expenses.map (fun item =>
        if item.id = eid then
          { id := item.id, description := form.description, amount := q,
            category := form.category, date := form.date, createdAt := item.createdAt }
        else item) := by
  simp [handleSubmit, hval, hq]

/-- The create branch of `handleSubmit`. -/
theorem handleSubmit_create_eq (newId : String) (now : Int) (form : FormState)
    (expenses : List Expense) (hval : validateForm form = none) :
    (handleSubmit none newId now form expenses).1 =
      { id := newId, description := trimStr form.description,
        amount := (jsToNumber form.amount).getD 0, category := form.category,
        date := form.date, createdAt := now } :: expenses := by
  simp [handleSubmit, hval]

theorem mem_CATEGORIES (c : Category) : c ∈ CATEGORIES := by
  cases c <;> simp [CATEGORIES]

/-! ### Claim C5 -/

/-- Claim C5: on a valid draft, the update branch maps every record whose
`id` matches to a record with the same `id` and `createdAt` and exactly the
draft's other four field values, leaving every other record (and the list
order) unchanged; when no record carries the `id`, the collection is
unchanged (silent no-op); and updating a record with its own current field
values leaves the collection observably identical (idempotence). -/
theorem c5_update_frame_noop_idem (eid newId : String) (now : Int) (form : FormState)
    (expenses : List Expense) (q : ℚ)
    (hval : validateForm form = none) (hq : jsToNumber form.amount = some q) :
    (handleSubmit (some eid) newId now form expenses).1 =
      expenses.map (fun item =>
        if item.id = eid then
          { id := item.id, description := form.description, amount := q,
            category := form.category, date := form.date, createdAt := item.createdAt }
        else item) ∧
    ((∀ item ∈ expenses, item.id ≠ eid) →
      (handleSubmit (some eid) newId now form expenses).1 = expenses) ∧
    ((∀ item ∈ expenses, item.id = eid →
        item.description = form.description ∧ item.amount = q ∧
        item.category = form.category ∧ item.date = form.date) →
      (handleSubmit (some eid) newId now form expenses).1 = expenses) := by
  have hmap := handleSubmit_update_eq eid newId now form expenses q hval hq
  refine ⟨hmap, ?_, ?_⟩
  · intro habs
    rw [hmap]
    apply map_eq_self_of
    intro a ha
    rw [if_neg (habs a ha)]
  · intro hself
    rw [hmap]
    apply map_eq_self_of
    intro a ha
    by_cases hid : a.id = eid
    · rcases hself a ha hid with ⟨h1, h2, h3, h4⟩
      rw [if_pos hid]
      cases a
      simp_all
    · rw [if_neg hid]

/-! ### Claim C4 -/

/-- Claim C4, amended: `delete` preserves all the record invariants, and so
does `create` on a valid draft (given a fresh id); `update` on a valid draft
preserves positive amounts, category membership, id uniqueness and
non-blank-after-trim descriptions, but it stores the draft's description
VERBATIM — `{ ...item, ...form, amount }` does not trim — so it preserves the
"description is trimmed text" invariant only when the draft's description is
already trimmed. -/
theorem c4_invariants_amended (deleteId eid newId : String) (now : Int)
    (form : FormState) (expenses : List Expense) :
    (Invariant expenses → Invariant (handleDelete deleteId expenses)) ∧
    (Invariant expenses → validateForm form = none →
      newId ∉ expenses.map (fun e => e.id) →
      Invariant ((handleSubmit none newId now form expenses).1)) ∧
    (Invariant expenses → validateForm form = none →
      WeakInvariant ((handleSubmit (some eid) newId now form expenses).1)) ∧
    (Invariant expenses → validateForm form = none →
      trimStr form.description = form.description →
      Invariant ((handleSubmit (some eid) newId now form expenses).1)) := by
  refine ⟨?_, ?_, ?_, ?_⟩
  · rintro ⟨hitems, hids⟩
    refine ⟨?_, ?_⟩
    · intro e he
      exact hitems e (List.mem_filter.mp he).1
    · exact hids.sublist ((List.filter_sublist expenses).map (fun e => e.id))
  · rintro ⟨hitems, hids⟩ hval hnew
    rw [handleSubmit_create_eq newId now form expenses hval]
    refine ⟨?_, ?_⟩
    · intro e he
      rcases List.mem_cons.mp he with rfl | he'
      · exact ⟨validateForm_none_amount hval, mem_CATEGORIES _,
          trimStr_idem _, validateForm_none_desc hval⟩
      · exact hitems e he'
    · rw [List.map_cons]
      exact List.nodup_cons.mpr ⟨hnew, hids⟩
  · rintro ⟨hitems, hids⟩ hval
    rcases ((validateForm_eq_none_iff form).mp hval).2.2 with ⟨q, hq, hqpos⟩
    rw [handleSubmit_update_eq eid newId now form expenses q hval hq]
    refine ⟨?_, ?_⟩
    · intro e he
      rcases List.mem_map.mp he with ⟨a, ha, rfl⟩
      by_cases hid : a.id = eid
      · rw [if_pos hid]
        exact ⟨hqpos, mem_CATEGORIES _, validateForm_none_desc hval⟩
      · rw [if_neg hid]
        rcases hitems a ha with ⟨h1, h2, h3, h4⟩
        refine ⟨h1, h2, ?_⟩
        rw [h3]
        exact h4
    · rw [List.map_map]
      have hcomp : expenses.map
          ((fun e => e.id) ∘ (fun item =>
            if item.id = eid then
              ({ id := item.id, description := form.description, amount := q,
                 category := form.category, date := form.date,
                 createdAt := item.createdAt } : Expense)
            else item)) = expenses.map (fun e => e.id) := by
        apply List.map_congr_left
        intro a ha
        by_cases hid : a.id = eid <;> simp [Function.comp, hid]
      rw [hcomp]
      exact hids
  · rintro ⟨hitems, hids⟩ hval htrim
    rcases ((validateForm_eq_none_iff form).mp hval).2.2 with ⟨q, hq, hqpos⟩
    rw [handleSubmit_update_eq eid newId now form expenses q hval hq]
    refine ⟨?_, ?_⟩
    · intro e he
      rcases List.mem_map.mp he with ⟨a, ha, rfl⟩
      by_cases hid : a.id = eid
      · rw [if_pos hid]
        exact ⟨hqpos, mem_CATEGORIES _, htrim, htrim ▸ validateForm_none_desc hval⟩
      · rw [if_neg hid]
        exact hitems a ha
    · rw [List.map_map]
      have hcomp : expenses.map
          ((fun e => e.id) ∘ (fun item =>
            if item.id = eid then
              ({ id := item.id, description := form.description, amount := q,
                 category := form.category, date := form.date,
                 createdAt := item.createdAt } : Expense)
            else item)) = expenses.map (fun e => e.id) := by
        apply List.map_congr_left
        intro a ha
        by_cases hid : a.id = eid <;> simp [Function.comp, hid]
      rw [hcomp]
      exact hids

section
attribute [local semireducible] Rat.add Rat.mul Rat.inv Rat.sub Rat.ofScientific

/-- Claim C4, counterexample: updating a valid record with a valid draft whose
description carries surrounding whitespace produces a collection violating the
"description is non-empty trimmed text" invariant, refuting "a record produced
by update with a valid draft has a trimmed description, just as one produced
by create does". -/
theorem c4_invariants_counterexample :
    Invariant [baseExpense] ∧ validateForm paddedForm = none ∧
    ¬ Invariant ((handleSubmit (some "a") "b" 1 paddedForm [baseExpense]).1) := by
  decide

/-- Claim C4, witness: the amended invariant-preservation theorem evaluated on
concrete delete, create and update operations. -/
theorem c4_invariants_amended_witness :
    Invariant (handleDelete "zzz" [baseExpense]) ∧
    Invariant ((handleSubmit none "b" 1 tidyForm [baseExpense]).1) ∧
    WeakInvariant ((handleSubmit (some "a") "b" 1 paddedForm [baseExpense]).1) ∧
    Invariant ((handleSubmit (some "a") "b" 1 tidyForm [baseExpense]).1) :=
  ⟨(c4_invariants_amended "zzz" "a" "b" 1 tidyForm [baseExpense]).1 (by decide),
   (c4_invariants_amended "zzz" "a" "b" 1 tidyForm [baseExpense]).2.1
     (by decide) (by decide) (by decide),
   (c4_invariants_amended "zzz" "a" "b" 1 paddedForm [baseExpense]).2.2.1
     (by decide) (by decide),
   (c4_invariants_amended "zzz" "a" "b" 1 tidyForm [baseExpense]).2.2.2
     (by decide) (by decide) (by decide)⟩

/-- Claim C5, witness: updating `baseExpense` with its own current field
values (amount text `"5"` parses back to its stored amount) leaves the
collection identical. -/
theorem c5_update_frame_noop_idem_witness :
    (handleSubmit (some "a") "b" 1 selfForm [baseExpense]).1 = [baseExpense] :=
  (c5_update_frame_noop_idem "a" "b" 1 selfForm [baseExpense] 5
    (by decide) (by decide)).2.2 (by decide)

end

/-! ### Exporter helper lemmas -/

theorem replaceQuote_eq : ∀ l : List Char, replaceQuote l = l
  | [] => rfl
  | c :: cs => by
    by_cases h : c = '\x22'
    · simp [replaceQuote, h, replaceQuote_eq cs]
    · simp [replaceQuote, h, replaceQuote_eq cs]

/-- The quoting map is just wrapping in quotes: the "escape" step
`replace(/\"/g, '"')` replaces every quote with itself. -/
theorem csvCell_eq (s : String) : csvCell s = dq ++ s ++ dq := by
  unfold csvCell
  rw [replaceQuote_eq]

theorem csvLine_expenseRow (e : Expense) :
    csvLine (expenseRow e) =
      dq ++ e.description ++ dq ++ "," ++ dq ++ toFixed2 e.amount ++ dq ++ "," ++
      dq ++ categoryName e.category ++ dq ++ "," ++ dq ++ e.date ++ dq := by
  have h : csvLine (expenseRow e) =
      csvCell e.description ++ "," ++ csvCell (toFixed2 e.amount) ++ "," ++
      csvCell (categoryName e.category) ++ "," ++ csvCell e.date := rfl
  rw [h, csvCell_eq, csvCell_eq, csvCell_eq, csvCell_eq]
  simp [String.append_assoc]

theorem csvText_eq (rows : List Expense) :
    csvText rows = String.intercalate "\n"
      ((dq ++ "Description" ++ dq ++ "," ++ dq ++ "Amount" ++ dq ++ "," ++
        dq ++ "Category" ++ dq ++ "," ++ dq ++ "Date" ++ dq) ::
        rows.map (fun e =>
          dq ++ e.description ++ dq ++ "," ++ dq ++ toFixed2 e.amount ++ dq ++ "," ++
          dq ++ categoryName e.category ++ dq ++ "," ++ dq ++ e.date ++ dq)) := by
  unfold csvText
  rw [List.map_cons, List.map_map]
  have hhead : csvLine csvHeader =
      dq ++ "Description" ++ dq ++ "," ++ dq ++ "Amount" ++ dq ++ "," ++
      dq ++ "Category" ++ dq ++ "," ++ dq ++ "Date" ++ dq := rfl
  rw [hhead]
  congr 1
  congr 1
  apply List.map_congr_left
  intro e _
  exact csvLine_expenseRow e

section
attribute [local semireducible] Rat.add Rat.mul Rat.inv Rat.sub Rat.ofScientific

/-! ### Claim C6 -/

/-- Claim C6, counterexample: on the spec's own two-record example the
exporter's output differs from the claimed string (the header cells are
quoted like every other cell); and an embedded double quote is emitted
unchanged rather than doubled. -/
theorem c6_exporter_counterexample :
    csvText [busExpense, coffeeExpense] ≠ specClaimedCsv ∧
    csvCell "say \x22hi\x22" = "\x22say \x22hi\x22\x22" ∧
    csvCell "say \x22hi\x22" ≠ "\x22say \x22\x22hi\x22\x22\x22" := by
  decide

/-- Claim C6, amended: for every non-empty input list the exporter produces a
header row whose four field names are each wrapped in double quotes, followed
by one row per record in the order of the input list, every field wrapped in
double quotes and the amount formatted with exactly two decimal places; an
embedded double-quote character is emitted unchanged (the escape replaces a
quote with a single quote, i.e. it does NOT double it); on the spec's
two-record example the output is exactly the concrete string below (which has
a quoted header, unlike the spec's claimed string). -/
theorem c6_exporter_amended (rows : List Expense) (_hrows : rows ≠ []) :
    (∀ s : String, csvCell s = dq ++ s ++ dq) ∧
    csvText rows = String.intercalate "\n"
      ((dq ++ "Description" ++ dq ++ "," ++ dq ++ "Amount" ++ dq ++ "," ++
        dq ++ "Category" ++ dq ++ "," ++ dq ++ "Date" ++ dq) ::
        rows.map (fun e =>
          dq ++ e.description ++ dq ++ "," ++ dq ++ toFixed2 e.amount ++ dq ++ "," ++
          dq ++ categoryName e.category ++ dq ++ "," ++ dq ++ e.date ++ dq)) ∧
    csvText [busExpense, coffeeExpense] =
      "\x22Description\x22,\x22Amount\x22,\x22Category\x22,\x22Date\x22\n\x22Bus\x22,\x222.75\x22,\x22Transportation\x22,\x222024-01-06\x22\n\x22Coffee\x22,\x224.50\x22,\x22Food\x22,\x222024-01-05\x22" :=
  ⟨csvCell_eq, csvText_eq rows, by decide⟩

/-- Claim C6, witness: the amended exporter theorem evaluated on the spec's
two-record example. -/
theorem c6_exporter_amended_witness :
    csvText [busExpense, coffeeExpense] =
      "\x22Description\x22,\x22Amount\x22,\x22Category\x22,\x22Date\x22\n\x22Bus\x22,\x222.75\x22,\x22Transportation\x22,\x222024-01-06\x22\n\x22Coffee\x22,\x224.50\x22,\x22Food\x22,\x222024-01-05\x22" :=
  (c6_exporter_amended [busExpense, coffeeExpense] (by decide)).2.2

/-! ### Claim C7 -/

/-- Claim C7, counterexample: with a one-record collection and a filter that
excludes it, the list of records actually given to the exporter's row builder
is empty, yet `exportCsv` still produces output — a header-only CSV with zero
data rows — refuting "the export produces no output at all". -/
theorem c7_export_guard_counterexample :
    filteredExpenses [coffeeExpense] excludeAllFilters = [] ∧
    exportCsv [coffeeExpense] excludeAllFilters =
      some "\x22Description\x22,\x22Amount\x22,\x22Category\x22,\x22Date\x22" := by
  decide

/-- Claim C7, amended: the export is suppressed (no file) exactly when the
FULL unfiltered collection is empty — the guard tests `expenses.length`, not
the filtered list; when the collection is non-empty the CSV of the filtered
list is produced, and in particular if every record is filtered out the
output is a header-only CSV containing zero data rows. -/
theorem c7_export_guard_amended (expenses : List Expense) (filters : Filters) :
    (expenses = [] → exportCsv expenses filters = none) ∧
    (expenses ≠ [] →
      exportCsv expenses filters = some (csvText (filteredExpenses expenses filters))) ∧
    (expenses ≠ [] → filteredExpenses expenses filters = [] →
      exportCsv expenses filters =
        some (dq ++ "Description" ++ dq ++ "," ++ dq ++ "Amount" ++ dq ++ "," ++
              dq ++ "Category" ++ dq ++ "," ++ dq ++ "Date" ++ dq)) := by
  refine ⟨?_, ?_, ?_⟩
  · intro he
    simp [exportCsv, he]
  · intro hne
    have hlen : expenses.length ≠ 0 := by
      simpa [List.length_eq_zero] using hne
    simp [exportCsv, hlen]
  · intro hne hfil
    have hlen : expenses.length ≠ 0 := by
      simpa [List.length_eq_zero] using hne
    simp only [exportCsv, hlen, if_neg, hfil]
    rfl

/-- Claim C7, witness: the amended guard theorem evaluated on an empty
collection and on a non-empty collection whose filtered view is empty. -/
theorem c7_export_guard_amended_witness :
    exportCsv [] noFilter = none ∧
    exportCsv [coffeeExpense] excludeAllFilters =
      some (dq ++ "Description" ++ dq ++ "," ++ dq ++ "Amount" ++ dq ++ "," ++
            dq ++ "Category" ++ dq ++ "," ++ dq ++ "Date" ++ dq) :=
  ⟨(c7_export_guard_amended [] noFilter).1 rfl,
   (c7_export_guard_amended [coffeeExpense] excludeAllFilters).2.2 (by decide) (by decide)⟩

end

/-! ### Aggregation helper lemmas -/

theorem foldl_add_amount (l : List Expense) (a : ℚ) :
    l.foldl (fun sum expense => sum + expense.amount) a =
      a + l.foldl (fun sum expense => sum + expense.amount) 0 := by
  induction l generalizing a with
  | nil => simp
  | cons e l ih =>
    rw [List.foldl_cons, List.foldl_cons, ih (a + e.amount), ih (0 + e.amount)]
    ring

theorem sumAmounts_cons (e : Expense) (l : List Expense) :
    sumAmounts (e :: l) = e.amount + sumAmounts l := by
  unfold sumAmounts
  rw [List.foldl_cons, foldl_add_amount]
  ring

theorem sumAmounts_filter_cons (c : Category) (e : Expense) (l : List Expense) :
    sumAmounts ((e :: l).filter (fun x => decide (x.category = c))) =
      (if e.category = c then e.amount else 0) +
        sumAmounts (l.filter (fun x => decide (x.category = c))) := by
  by_cases hc : e.category = c
  · simp [List.filter_cons, hc, sumAmounts_cons]
  · simp [List.filter_cons, hc]

/-- Summing the six per-category totals recovers the total of all amounts:
every expense's category is exactly one of the six. -/
theorem totals_sum (expenses : List Expense) :
    sumAmounts (expenses.filter (fun x => decide (x.category = Category.Food))) +
    sumAmounts (expenses.filter (fun x => decide (x.category = Category.Transportation))) +
    sumAmounts (expenses.filter (fun x => decide (x.category = Category.Entertainment))) +
    sumAmounts (expenses.filter (fun x => decide (x.category = Category.Shopping))) +
    sumAmounts (expenses.filter (fun x => decide (x.category = Category.Bills))) +
    sumAmounts (expenses.filter (fun x => decide (x.category = Category.Other))) =
    sumAmounts expenses := by
  induction expenses with
  | nil => norm_num [sumAmounts]
  | cons e l ih =>
    simp only [sumAmounts_filter_cons, sumAmounts_cons]
    cases hc : e.category <;> simp [hc] <;> linarith [ih]

/-! ### Claim C8 -/

/-- Claim C8: `totalsByCategory` has exactly one entry per category of the
fixed enumeration, in enumeration order; an entry's total is `0` when no
record carries its category (it is by construction the sum of the matching
records' amounts); and the six totals sum to `totalSpent` of the same
unfiltered collection. -/
theorem c8_totals_cover_and_sum (expenses : List Expense) :
    (totalsByCategory expenses).map (fun entry => entry.category) = CATEGORIES ∧
    (∀ entry ∈ totalsByCategory expenses,
      (∀ e ∈ expenses, e.category ≠ entry.category) → entry.total = 0) ∧
    ((totalsByCategory expenses).map (fun entry => entry.total)).sum =
      totalSpent expenses := by
  refine ⟨rfl, ?_, ?_⟩
  · intro entry hmem hnone
    rcases List.mem_map.mp hmem with ⟨c, _, rfl⟩
    have hfil : expenses.filter (fun e => decide (e.category = c)) = [] :=
      List.filter_eq_nil_iff.mpr (fun a ha => by simpa using hnone a ha)
    show sumAmounts (expenses.filter (fun e => decide (e.category = c))) = 0
    rw [hfil]
    rfl
  · have h6 := totals_sum expenses
    simp only [totalsByCategory, CATEGORIES, List.map_cons, List.map_nil,
      List.sum_cons, List.sum_nil]
    unfold totalSpent
    linarith [h6]

/-! ### Claim C9 -/

theorem topStep_le_left (a c : CategoryTotal) : a.total ≤ (topStep a c).total := by
  unfold topStep
  by_cases h : a.total < c.total
  · rw [if_pos h]
    exact le_of_lt h
  · rw [if_neg h]

theorem topStep_le_right (a c : CategoryTotal) : c.total ≤ (topStep a c).total := by
  unfold topStep
  by_cases h : a.total < c.total
  · rw [if_pos h]
  · rw [if_neg h]
    exact le_of_not_lt h

theorem topFold_init_le :
    ∀ (ts : List CategoryTotal) (a : CategoryTotal),
      a.total ≤ (ts.foldl topStep a).total
  | [], _ => le_refl _
  | c :: ts, a => by
    rw [List.foldl_cons]
    exact le_trans (topStep_le_left a c) (topFold_init_le ts (topStep a c))

theorem topFold_mem_le :
    ∀ (ts : List CategoryTotal) (a e : CategoryTotal), e ∈ ts →
      e.total ≤ (ts.foldl topStep a).total
  | [], _, _, h => absurd h (List.not_mem_nil _)
  | c :: ts, a, e, h => by
    rw [List.foldl_cons]
    rcases List.mem_cons.mp h with rfl | h'
    · exact le_trans (topStep_le_right a e) (topFold_init_le ts (topStep a e))
    · exact topFold_mem_le ts (topStep a c) e h'

/-- The reduce of `topCategory` either returns its initial value, or returns
a list element strictly greater than the initial value that strictly exceeds
everything to its left (i.e. the FIRST maximum). -/
theorem topFold_cases :
    ∀ (ts : List CategoryTotal) (a : CategoryTotal),
      ts.foldl topStep a = a ∨
      ∃ l1 l2, ts = l1 ++ (ts.foldl topStep a) :: l2 ∧
        a.total < (ts.foldl topStep a).total ∧
        ∀ e ∈ l1, e.total < (ts.foldl topStep a).total
  | [], a => Or.inl rfl
  | c :: ts, a => by
    rw [List.foldl_cons]
    rcases topFold_cases ts (topStep a c) with heq | ⟨l1, l2, hsplit, hlt, hall⟩
    · rw [heq]
      unfold topStep
      by_cases h : a.total < c.total
      · rw [if_pos h]
        right
        exact ⟨[], ts, rfl, h, by simp⟩
      · rw [if_neg h]
        left
        rfl
    · right
      refine ⟨c :: l1, l2, ?_, ?_, ?_⟩
      · rw [List.cons_append, ← hsplit]
      · exact lt_of_le_of_lt (topStep_le_left a c) hlt
      · intro e he
        rcases List.mem_cons.mp he with rfl | he'
        · exact lt_of_le_of_lt (topStep_le_right a e) hlt
        · exact hall e he'

theorem sumAmounts_nonneg {l : List Expense} (h : ∀ e ∈ l, 0 ≤ e.amount) :
    0 ≤ sumAmounts l := by
  induction l with
  | nil => exact le_refl 0
  | cons e l ih =>
    rw [sumAmounts_cons]
    exact add_nonneg (h e (List.mem_cons_self e l))
      (ih (fun x hx => h x (List.mem_cons_of_mem e hx)))

theorem totals_nonneg {expenses : List Expense} (h : ∀ e ∈ expenses, 0 < e.amount) :
    ∀ entry ∈ totalsByCategory expenses, 0 ≤ entry.total := by
  intro entry hmem
  rcases List.mem_map.mp hmem with ⟨c, _, rfl⟩
  show 0 ≤ sumAmounts (expenses.filter (fun e => decide (e.category = c)))
  apply sumAmounts_nonneg
  intro e he
  exact le_of_lt (h e (List.mem_filter.mp he).1)

/-- Claim C9: `topCategory` returns an entry of the totals list carrying the
maximum total; the returned entry strictly exceeds every entry before it in
enumeration order (so ties resolve to the earliest category); and when every
total is zero it still deterministically returns the first category, `Food`,
with total `0` (which is then itself the Food entry of the list). -/
theorem c9_top_category (expenses : List Expense)
    (hpos : ∀ e ∈ expenses, 0 < e.amount) :
    topCategory expenses ∈ totalsByCategory expenses ∧
    (∀ entry ∈ totalsByCategory expenses,
      entry.total ≤ (topCategory expenses).total) ∧
    (∃ l1 l2, totalsByCategory expenses = l1 ++ (topCategory expenses) :: l2 ∧
      ∀ entry ∈ l1, entry.total < (topCategory expenses).total) ∧
    ((∀ entry ∈ totalsByCategory expenses, entry.total = 0) →
      topCategory expenses = { category := Category.Food, total := 0 }) := by
  have hr : topCategory expenses =
      (totalsByCategory expenses).foldl topStep
        { category := Category.Food, total := 0 } := rfl
  have hcons : totalsByCategory expenses =
      foodEntry expenses :: totalsTail expenses := rfl
  have hb : ∀ entry ∈ totalsByCategory expenses,
      entry.total ≤ (topCategory expenses).total := by
    intro entry hmem
    rw [hr]
    exact topFold_mem_le _ _ entry hmem
  have hfoodmem : foodEntry expenses ∈ totalsByCategory expenses := by
    rw [hcons]
    exact List.mem_cons_self _ _
  rcases topFold_cases (totalsByCategory expenses)
      { category := Category.Food, total := 0 } with heq | ⟨l1, l2, hsplit, hlt, hall⟩
  · have hreq : topCategory expenses = { category := Category.Food, total := 0 } := by
      rw [hr, heq]
    have hfood0 : (foodEntry expenses).total = 0 := by
      have h1 := hb _ hfoodmem
      rw [hreq] at h1
      exact le_antisymm h1 (totals_nonneg hpos _ hfoodmem)
    have hfoodentry : foodEntry expenses = { category := Category.Food, total := 0 } := by
      have h2 : foodEntry expenses =
          { category := Category.Food, total := (foodEntry expenses).total } := rfl
      rw [h2, hfood0]
    refine ⟨?_, hb, ?_, fun _ => hreq⟩
    · rw [hreq, ← hfoodentry]
      exact hfoodmem
    · refine ⟨[], totalsTail expenses, ?_, by simp⟩
      rw [List.nil_append, hreq, ← hfoodentry]
      exact hcons
  · have hrmem : (totalsByCategory expenses).foldl topStep
        { category := Category.Food, total := 0 } ∈ totalsByCategory expenses := by
      have hmem0 : (totalsByCategory expenses).foldl topStep
          { category := Category.Food, total := 0 } ∈
          l1 ++ ((totalsByCategory expenses).foldl topStep
            { category := Category.Food, total := 0 }) :: l2 :=
        List.mem_append_right _ (List.mem_cons_self _ _)
      rw [← hsplit] at hmem0
      exact hmem0
    refine ⟨?_, hb, ?_, ?_⟩
    · rw [hr]
      exact hrmem
    · exact ⟨l1, l2, by rw [hr]; exact hsplit, by rw [hr]; exact hall⟩
    · intro hzero
      exfalso
      have h0 := hzero _ hrmem
      rw [h0] at hlt
      have h00 : (0 : ℚ) < 0 := hlt
      exact absurd h00 (lt_irrefl 0)

section
attribute [local semireducible] Rat.add Rat.mul Rat.inv Rat.sub Rat.ofScientific

/-- Claim C8, witness: on the spec's two-record scenario the six totals sum
to `totalSpent` (= 7.25). -/
theorem c8_totals_cover_and_sum_witness :
    ((totalsByCategory [coffeeExpense, busExpense]).map (fun entry => entry.total)).sum =
      totalSpent [coffeeExpense, busExpense] :=
  (c8_totals_cover_and_sum [coffeeExpense, busExpense]).2.2

/-- Claim C9, witness: on the spec's two-record scenario (all amounts
positive) the returned top entry is one of the totals entries. -/
theorem c9_top_category_witness :
    topCategory [coffeeExpense, busExpense] ∈ totalsByCategory [coffeeExpense, busExpense] :=
  (c9_top_category [coffeeExpense, busExpense] (by decide)).1

end

end Clarity
